import Mathlib

mutual
/-- A JavaScript-like runtime value, as a tagged union: the nested
attribute payloads handled by the RUM tools are arbitrary JSON-like data
(string, number, boolean, null, undefined, object). Numbers are modelled
as rationals. -/
inductive JsValue : Type where
  | vNull : JsValue
  | vUndefined : JsValue
  | vBool : Bool → JsValue
  | vNum : Rat → JsValue
  | vStr : String → JsValue
  | vObj : JsFields → JsValue
deriving DecidableEq, Repr

/-- The fields of a JavaScript object, in insertion order. -/
inductive JsFields : Type where
  | nil : JsFields
  | cons : String → JsValue → JsFields → JsFields
deriving DecidableEq, Repr
end

/-- JavaScript truthiness of a value (null, undefined, false, 0 and the
empty string are falsy; every object is truthy). -/
def JsValue.truthy : JsValue → Bool
  | .vNull => false
  | .vUndefined => false
  | .vBool b => b
  | .vNum n => decide (n ≠ 0)
  | .vStr s => decide (s ≠ "")
  | .vObj _ => true

/-- First-match lookup of a property among an object's own fields. -/
def JsFields.getField : JsFields → String → Option JsValue
  | .nil, _ => none
  | .cons k v rest, key => if k = key then some v else JsFields.getField rest key

/-- Build an object field list from a Lean list (for concrete examples). -/
def JsFields.ofList : List (String × JsValue) → JsFields
  | [] => .nil
  | (k, v) :: rest => .cons k v (JsFields.ofList rest)

/-- Non-throwing JavaScript property read `v[k]`, defined for bases that
are not `null`/`undefined`: an object yields its field (or `undefined`
when the key is absent); a primitive yields `undefined`. Exotic boxed
properties of primitives (such as `length` on strings) are not modelled.
For `null`/`undefined` bases this returns `undefined` too, so callers
that can reach a throwing read must go through `jsIndex` instead. -/
def jsGet : JsValue → String → JsValue
  | .vObj fields, k => (fields.getField k).getD .vUndefined
  | _, _ => .vUndefined

/-- JavaScript property read `v[k]` with its failure mode: reading a
property of `null` or `undefined` throws a TypeError, modelled as
`none`; every other base yields `some` of the non-throwing read. -/
def jsIndex : JsValue → String → Option JsValue
  | .vNull, _ => none
  | .vUndefined, _ => none
  | v, k => some (jsGet v k)

/-- The `{ value, found }` record produced by `getValueByPath`. -/
structure ResolutionResult where
  value : JsValue
  found : Bool
deriving DecidableEq, Repr

/-- Shallow embedding of `getValueByPath(obj, path, index)` from
`src/tools/rum/tool.ts`: when the path is exhausted it returns the
current value with `found: true`; otherwise it reads `obj[key]`
(`none` models the TypeError thrown when `obj` is `null`), answers
`{ value: null, found: false }` when that read is strictly `undefined`,
and recurses into the read value otherwise. The index argument of the
source is represented by structural recursion on the remaining path. -/
def getValueByPath : JsValue → List String → Option ResolutionResult
  | obj, [] => some ⟨obj, true⟩
  | obj, key :: rest =>
    match jsIndex obj key with
    | none => none
    | some v =>
      match v with
      | .vUndefined => some ⟨.vNull, false⟩
      | .vNull => getValueByPath .vNull rest
      | .vBool b => getValueByPath (.vBool b) rest
      | .vNum q => getValueByPath (.vNum q) rest
      | .vStr s => getValueByPath (.vStr s) rest
      | .vObj fields => getValueByPath (.vObj fields) rest

/-- Shallow embedding of the reduce-based resolver of
`get_rum_page_performance`:
`metricNameParts.reduce((acc, part) => (acc ? acc[part] : undefined), attrs)`.
A falsy accumulator short-circuits to `undefined`; a truthy accumulator
is never `null`/`undefined`, so its property read cannot throw. -/
def reduceResolve (attrs : JsValue) (path : List String) : JsValue :=
  path.foldl (fun acc part => if acc.truthy then jsGet acc part else .vUndefined) attrs

mutual
/-- Values free of `null` and `undefined` in every (transitive) field. -/
def nullFree : JsValue → Bool
  | .vNull => false
  | .vUndefined => false
  | .vBool _ => true
  | .vNum _ => true
  | .vStr _ => true
  | .vObj fields => nullFreeFields fields

/-- `nullFree` on every field value of an object. -/
def nullFreeFields : JsFields → Bool
  | .nil => true
  | .cons _ v rest => nullFree v && nullFreeFields rest
end

/-- Helper for `jsSplitDot`: accumulate the characters of the current
segment until a dot is met. -/
def jsSplitDotAux : List Char → String → List String
  | [], acc => [acc]
  | c :: rest, acc =>
    if c = '.' then acc :: jsSplitDotAux rest ""
    else jsSplitDotAux rest (acc.push c)

/-- JavaScript `s.split('.')` with a single-character separator and no
limit, as applied to `groupBy` strings and metric names in the source
(`groupBy.split('.')`, `metricName.split('.')`). The empty string splits
to `[""]`; no escaping of literal dots exists. -/
def jsSplitDot (s : String) : List String := jsSplitDotAux s.data ""

/-- JavaScript `String(v)` conversion, used to build group keys from
resolved values. Integral numbers print as in JS; non-integral rationals
are rendered `num/den` (IEEE float formatting is not replicated by the
rational number model); objects print as `[object Object]`. -/
def jsString : JsValue → String
  | .vNull => "null"
  | .vUndefined => "undefined"
  | .vBool true => "true"
  | .vBool false => "false"
  | .vNum q => if q.den = 1 then toString q.num else toString q.num ++ "/" ++ toString q.den
  | .vStr s => s
  | .vObj _ => "[object Object]"

/-- One RUM event, reduced to the only part the aggregating handlers
read: the value of `event.attributes?.attributes`, with `undefined`
standing for either level being absent. -/
structure RumEvent where
  attrs : JsValue
deriving DecidableEq, Repr

/-- `event.attributes.attributes.session?.id` as read on a truthy
attribute payload: optional chaining yields `undefined` when `session`
is `null`/`undefined` and otherwise reads `id` on it (never throwing,
since the base of each read is known non-null). -/
def sessionIdOf (attrs : JsValue) : JsValue :=
  match jsGet attrs "session" with
  | .vNull => .vUndefined
  | .vUndefined => .vUndefined
  | s => jsGet s "id"

/-- First-match lookup in an insertion-ordered association list (JS
`Map.get` / own-property read on a string-keyed record). -/
def getEntry {α : Type} : List (String × α) → String → Option α
  | [], _ => none
  | (k, v) :: rest, key => if k = key then some v else getEntry rest key

/-- JS `obj[key] = v` on a string-keyed record / `Map.set`: overwrite in
place when the key exists, append at the end otherwise. -/
def setEntry {α : Type} : List (String × α) → String → α → List (String × α)
  | [], key, v => [(key, v)]
  | (k, w) :: rest, key, v =>
    if k = key then (k, v) :: rest else (k, w) :: setEntry rest key v

/-- `sessions.get(groupValue).add(sid)`: JS `Set.add` appends the id when
not yet present (SameValueZero equality, which agrees with structural
equality on the primitive session ids modelled here); a missing group
key leaves the map unchanged (the source guarantees presence via `has`).
-/
def addSessionId : List (String × List JsValue) → String → JsValue → List (String × List JsValue)
  | [], _, _ => []
  | (k, s) :: rest, key, sid =>
    if k = key then (k, if sid ∈ s then s else s ++ [sid]) :: rest
    else (k, s) :: addSessionId rest key sid

/-- One iteration of the event loop of `get_rum_grouped_event_count`:
skip events without a truthy attribute payload; resolve the groupBy path
(`none` propagates the TypeError escaping from `getValueByPath`); group
under the stringified value, or `"unknown"` when not found; create the
group's session set if missing; add the session id when truthy. -/
def gecStep (groupBy : String) (st : List (String × List JsValue)) (e : RumEvent) :
    Option (List (String × List JsValue)) :=
  if !e.attrs.truthy then some st
  else
    match getValueByPath e.attrs (jsSplitDot groupBy) with
    | none => none
    | some r =>
      let groupValue := if r.found then jsString r.value else "unknown"
      let st1 := if (getEntry st groupValue).isSome then st else st ++ [(groupValue, [])]
      some (if (sessionIdOf e.attrs).truthy
        then addSessionId st1 groupValue (sessionIdOf e.attrs) else st1)

/-- The aggregation core of the `get_rum_grouped_event_count` handler:
fold the event loop over the response data starting from an empty
`Map<string, Set<string>>`, then convert each group's session set to its
size, preserving insertion order (`Object.fromEntries`). `none` models
the handler throwing a TypeError out of `getValueByPath`. -/
def get_rum_grouped_event_count (events : List RumEvent) (groupBy : String) :
    Option (List (String × Nat)) := do
  let st ← events.foldlM (gecStep groupBy) []
  pure (st.map (fun kv => (kv.1, kv.2.length)))

/-- `metricNames.reduce((acc, name) => { acc[name] = []; return acc }, {})`:
one empty series per requested metric name. -/
def initMetrics (metricNames : List String) : List (String × List Rat) :=
  metricNames.foldl (fun acc name => setEntry acc name []) []

/-- `metrics[metricName].push(value)`. -/
def pushMetric (metrics : List (String × List Rat)) (name : String) (q : Rat) :
    List (String × List Rat) :=
  setEntry metrics name (((getEntry metrics name).getD []) ++ [q])

/-- The body of the inner metric loop of `get_rum_page_performance` for
one event with a truthy attribute payload: skip if the payload is
loosely `== null` (a dead guard kept from the source), resolve the
dotted name with the reduce-based resolver, and push the value only when
it is strictly a number. -/
def collectMetricStep (e : RumEvent) (m : List (String × List Rat)) (name : String) :
    List (String × List Rat) :=
  match e.attrs with
  | .vNull => m
  | .vUndefined => m
  | _ =>
    match reduceResolve e.attrs (jsSplitDot name) with
    | .vNum q => pushMetric m name q
    | _ => m

/-- The inner metric loop of `get_rum_page_performance`: apply
`collectMetricStep` for each requested metric name in order. -/
def collectEventMetrics (metricNames : List String) (metrics : List (String × List Rat))
    (e : RumEvent) : List (String × List Rat) :=
  metricNames.foldl (collectMetricStep e) metrics

/-- The event scan of `get_rum_page_performance`: events without a truthy
attribute payload are skipped; the rest contribute to each metric series
via `collectEventMetrics`. -/
def scanEvents (metricNames : List String) (events : List RumEvent) :
    List (String × List Rat) :=
  events.foldl (fun metrics e =>
    if e.attrs.truthy then collectEventMetrics metricNames metrics e else metrics)
    (initMetrics metricNames)

/-- The `{avg, min, max, count}` record computed per metric. -/
structure MetricSummary where
  avg : Rat
  min : Rat
  max : Rat
  count : Nat
deriving DecidableEq, Repr

/-- `Math.min(...values)` on the nonempty list actually passed by the
source (the empty case, which would be `Infinity` in JS, is unreachable
behind the `values.length > 0` guard and is given a dummy value). -/
def mathMin : List Rat → Rat
  | [] => 0
  | x :: xs => xs.foldl min x

/-- `Math.max(...values)`, same conventions as `mathMin`. -/
def mathMax : List Rat → Rat
  | [] => 0
  | x :: xs => xs.foldl max x

/-- The per-metric statistics step of `get_rum_page_performance`: sum via
`values.reduce((a, b) => a + b, 0)`, average `sum / values.length`, and
an explicit all-zero record when the series is empty. -/
def summarizeSeries (values : List Rat) : MetricSummary :=
  if values.length > 0 then
    { avg := (values.foldl (· + ·) 0) / (values.length : Rat)
      min := mathMin values
      max := mathMax values
      count := values.length }
  else { avg := 0, min := 0, max := 0, count := 0 }

/-- The aggregation core of the `get_rum_page_performance` handler:
initialize one empty series per metric name, scan all events, then map
each series to its summary (insertion order preserved by
`Object.entries`/`reduce`). -/
def get_rum_page_performance (events : List RumEvent) (metricNames : List String) :
    List (String × MetricSummary) :=
  (scanEvents metricNames events).map (fun kv => (kv.1, summarizeSeries kv.2))

/-- Filter query derivation of `get_rum_grouped_event_count`:
`filterQuery: query !== '*' ? query : undefined`. -/
def groupedCountFilterQuery (query : String) : Option String :=
  if query ≠ "*" then some query else none

/-- Filter query derivation of `get_rum_page_performance`:
`query !== '*' ? '@type:view ' + query : '@type:view'` (template literal
written as concatenation). -/
def pagePerformanceFilterQuery (query : String) : String :=
  if query ≠ "*" then "@type:view " ++ query else "@type:view"

/-- Errors a handler can throw after a successful external call: the
local `new Error(message)` raised on a null/absent data field, or a
TypeError escaping from path resolution. -/
inductive HandlerError where
  | noData : String → HandlerError
  | typeError : HandlerError
deriving DecidableEq, Repr

/-- `get_rum_applications` after the external call: raise on a
null/absent data field, otherwise return the applications payload (the
JSON-stringified text block carries exactly this data). -/
def get_rum_applications_handler (data : Option (List JsValue)) :
    Except HandlerError (List JsValue) :=
  match data with
  | none => .error (.noData "No RUM applications data returned")
  | some apps => .ok apps

/-- `get_rum_events` after the external call: raise on a null/absent
data field, otherwise return the events payload. -/
def get_rum_events_handler (data : Option (List RumEvent)) :
    Except HandlerError (List RumEvent) :=
  match data with
  | none => .error (.noData "No RUM events data returned")
  | some events => .ok events

/-- `get_rum_page_waterfall` after the external call: same null-data
check and message as `get_rum_events`. -/
def get_rum_page_waterfall_handler (data : Option (List RumEvent)) :
    Except HandlerError (List RumEvent) :=
  match data with
  | none => .error (.noData "No RUM events data returned")
  | some events => .ok events

/-- `get_rum_grouped_event_count` after the external call: raise on a
null/absent data field, otherwise aggregate; a TypeError thrown by
`getValueByPath` inside the aggregation escapes the handler. -/
def get_rum_grouped_event_count_handler (data : Option (List RumEvent)) (groupBy : String) :
    Except HandlerError (List (String × Nat)) :=
  match data with
  | none => .error (.noData "No RUM events data returned")
  | some events =>
    match get_rum_grouped_event_count events groupBy with
    | none => .error .typeError
    | some res => .ok res

/-- `get_rum_page_performance` after the external call: raise on a
null/absent data field, otherwise aggregate (the aggregation is total).
-/
def get_rum_page_performance_handler (data : Option (List RumEvent)) (metricNames : List String) :
    Except HandlerError (List (String × MetricSummary)) :=
  match data with
  | none => .error (.noData "No RUM events data returned")
  | some events => .ok (get_rum_page_performance events metricNames)

/-- Specification-side: the group key a usable event is filed under, as
dictated by the source (`some` group key unless path resolution throws).
-/
def eventGroupKey (groupBy : String) (e : RumEvent) : Option String :=
  (getValueByPath e.attrs (jsSplitDot groupBy)).map
    (fun r => if r.found then jsString r.value else "unknown")

/-- Specification-side: whether an event is usable (truthy payload) and
files under group `k`. -/
def contributes (groupBy k : String) (e : RumEvent) : Bool :=
  e.attrs.truthy && decide (eventGroupKey groupBy e = some k)

/-- Specification-side: the session id an event contributes, `none` when
the resolved `session?.id` is falsy. -/
def eventSessionId (e : RumEvent) : Option JsValue :=
  if (sessionIdOf e.attrs).truthy then some (sessionIdOf e.attrs) else none

/-- Specification-side: the (ordered, possibly repeating) list of session
ids contributed to group `k` by the events. -/
def groupSessionIds (groupBy k : String) (events : List RumEvent) : List JsValue :=
  (events.filter (contributes groupBy k)).filterMap eventSessionId

/-- Specification-side: the numeric samples collected for one metric
name across the events, in event order. -/
def metricContribution (name : String) (e : RumEvent) : List Rat :=
  match reduceResolve e.attrs (jsSplitDot name) with
  | .vNum q => [q]
  | _ => []

/-- Specification-side: the full numeric series of one metric name. -/
def metricSeries (name : String) : List RumEvent → List Rat
  | [] => []
  | e :: rest =>
    (if e.attrs.truthy then metricContribution name e else []) ++ metricSeries name rest

/-- The state update a usable event with resolved group key `gv` and
session-id value `sid` performs inside the loop of
`get_rum_grouped_event_count` (a repackaging of the tail of `gecStep`
used to structure the invariant proof). -/
def gecUpdate (st : List (String × List JsValue)) (gv : String) (sid : JsValue) :
    List (String × List JsValue) :=
  if sid.truthy
    then addSessionId (if (getEntry st gv).isSome then st else st ++ [(gv, [])]) gv sid
    else (if (getEntry st gv).isSome then st else st ++ [(gv, [])])

/-- Loop invariant of the `get_rum_grouped_event_count` event fold,
relating the `Map<string, Set<string>>` state to the processed prefix
`p`: group keys are unique and are exactly the group keys of the usable
processed events, and each group's session set is duplicate-free and
holds exactly the session ids contributed so far. -/
def GecInv (groupBy : String) (p : List RumEvent) (st : List (String × List JsValue)) : Prop :=
  (st.map Prod.fst).Nodup ∧
  (∀ k : String, (getEntry st k).isSome = true ↔
      ∃ e ∈ p, e.attrs.truthy = true ∧ eventGroupKey groupBy e = some k) ∧
  (∀ (k : String) (l : List JsValue), getEntry st k = some l →
      l.Nodup ∧ ∀ x : JsValue, x ∈ l ↔ x ∈ groupSessionIds groupBy k p)

/-- Concrete example event: `{geo: {country}, session: {id}}`. -/
def exGeoSession (country sid : String) : RumEvent :=
  ⟨.vObj (.cons "geo" (.vObj (.cons "country" (.vStr country) .nil))
    (.cons "session" (.vObj (.cons "id" (.vStr sid) .nil)) .nil))⟩

/-- Concrete example event: `{geo: {country}}`, no session. -/
def exGeoOnly (country : String) : RumEvent :=
  ⟨.vObj (.cons "geo" (.vObj (.cons "country" (.vStr country) .nil)) .nil)⟩

/-- Concrete example event: `{view: {load_time: q}}`. -/
def exViewNum (q : Rat) : RumEvent :=
  ⟨.vObj (.cons "view" (.vObj (.cons "load_time" (.vNum q) .nil)) .nil)⟩

/-- Concrete example event: `{view: {load_time: s}}` with a string value. -/
def exViewStr (s : String) : RumEvent :=
  ⟨.vObj (.cons "view" (.vObj (.cons "load_time" (.vStr s) .nil)) .nil)⟩

/-- Concrete example event: `{a: null}` (a null intermediate value). -/
def exNullMid : RumEvent := ⟨.vObj (.cons "a" .vNull .nil)⟩

/-! ### Basic lemmas about the resolvers -/

/-- Single-motive structural induction for `JsFields` (the derived
eliminator of the mutual inductive has two motives, which the tactic
framework does not accept). -/
theorem JsFields.inductionOn {motive : JsFields → Prop} (f : JsFields) (nil : motive .nil)
    (cons : ∀ k v rest, motive rest → motive (.cons k v rest)) : motive f :=
  match f with
  | .nil => nil
  | .cons k v rest => cons k v rest (JsFields.inductionOn rest nil cons)

theorem reduceResolve_nil (obj : JsValue) : reduceResolve obj [] = obj := rfl

theorem reduceResolve_cons (obj : JsValue) (k : String) (rest : List String) :
    reduceResolve obj (k :: rest)
      = reduceResolve (if obj.truthy then jsGet obj k else .vUndefined) rest := rfl

/-- Once the reducer accumulator is `undefined`, it stays `undefined`. -/
theorem reduceResolve_undefined (path : List String) :
    reduceResolve .vUndefined path = .vUndefined := by
  induction path with
  | nil => rfl
  | cons k rest ih =>
    rw [reduceResolve_cons]
    simpa [JsValue.truthy] using ih

/-- Every field value of a `nullFree` object is `nullFree`. -/
theorem getField_nullFree (fields : JsFields) (h : nullFreeFields fields = true)
    (k : String) (v : JsValue) (hv : fields.getField k = some v) : nullFree v = true := by
  induction fields using JsFields.inductionOn with
  | nil => simp [JsFields.getField] at hv
  | cons k0 v0 rest ih =>
    simp only [JsFields.getField] at hv
    simp only [nullFreeFields, Bool.and_eq_true] at h
    by_cases hk : k0 = k
    · rw [if_pos hk] at hv
      cases hv
      exact h.1
    · rw [if_neg hk] at hv
      exact ih h.2 hv

/-- Path resolution cannot throw on values free of `null`/`undefined`. -/
theorem getValueByPath_isSome_of_nullFree (path : List String) :
    ∀ (obj : JsValue), nullFree obj = true → (getValueByPath obj path).isSome = true := by
  induction path with
  | nil => intro obj _; rfl
  | cons key rest ih =>
    intro obj h
    cases obj with
    | vNull => simp [nullFree] at h
    | vUndefined => simp [nullFree] at h
    | vBool b => simp [getValueByPath, jsIndex, jsGet]
    | vNum q => simp [getValueByPath, jsIndex, jsGet]
    | vStr s => simp [getValueByPath, jsIndex, jsGet]
    | vObj fields =>
      have hf : nullFreeFields fields = true := by simpa [nullFree] using h
      cases hv : fields.getField key with
      | none => simp [getValueByPath, jsIndex, jsGet, hv]
      | some v =>
        have hvf : nullFree v = true := getField_nullFree fields hf key v hv
        cases v with
        | vNull => simp [nullFree] at hvf
        | vUndefined => simp [nullFree] at hvf
        | vBool b => simpa [getValueByPath, jsIndex, jsGet, hv] using ih (.vBool b) hvf
        | vNum q => simpa [getValueByPath, jsIndex, jsGet, hv] using ih (.vNum q) hvf
        | vStr s => simpa [getValueByPath, jsIndex, jsGet, hv] using ih (.vStr s) hvf
        | vObj f2 => simpa [getValueByPath, jsIndex, jsGet, hv] using ih (.vObj f2) hvf

/-! ### Claim C1 (corrected) -/

/-- **C1**, counterexample. On the attribute map `{ a: null }` with path
`["a", "b"]` — an intermediate segment resolving to `null` while one
more segment remains — `getValueByPath` does not return a
`found = false` result: the read of property `"b"` on `null` throws a
TypeError (modelled by `none`), because the source checks only for
strict `undefined` before recursing into the intermediate value. -/
theorem c1_counterexample_null_intermediate :
    getValueByPath (.vObj (.cons "a" .vNull .nil)) ["a", "b"] = none := by decide

/-- **C1**, amended. For every attribute map free of `null`/`undefined`
values and every path, `getValueByPath` returns a result (`found = true`
with a value, or `found = false`) without raising; indexing into a
non-map primitive (boolean, number, string) with path segments remaining
yields `found = false` rather than a crash; but an intermediate `null`
with path segments remaining raises a TypeError. -/
theorem c1_amended_path_resolution :
    (∀ (obj : JsValue) (path : List String), nullFree obj = true →
        (getValueByPath obj path).isSome = true) ∧
    (∀ (b : Bool) (k : String) (rest : List String),
        getValueByPath (.vBool b) (k :: rest) = some ⟨.vNull, false⟩) ∧
    (∀ (q : Rat) (k : String) (rest : List String),
        getValueByPath (.vNum q) (k :: rest) = some ⟨.vNull, false⟩) ∧
    (∀ (s : String) (k : String) (rest : List String),
        getValueByPath (.vStr s) (k :: rest) = some ⟨.vNull, false⟩) ∧
    (∀ (k : String) (rest : List String),
        getValueByPath .vNull (k :: rest) = none) := by
  refine ⟨fun obj path h => getValueByPath_isSome_of_nullFree path obj h, ?_, ?_, ?_, ?_⟩
    <;> intros <;> rfl

/-- **C1** witness: the amended totality applied to the concrete map
`{ a: 7 }` and path `["a", "b"]`. -/
theorem c1_witness :
    nullFree (.vObj (.cons "a" (.vNum 7) .nil)) = true ∧
    (getValueByPath (.vObj (.cons "a" (.vNum 7) .nil)) ["a", "b"]).isSome = true :=
  ⟨by decide, c1_amended_path_resolution.1 _ ["a", "b"] (by decide)⟩

/-! ### Claim C2 -/

/-- **C2**: the reduce-based resolver of `get_rum_page_performance`
yields a numeric value exactly when `getValueByPath` on the same inputs
returns `found = true` with that same numeric value — the two resolvers
agree for the purpose of collecting numeric metric samples (over the
model, which gives primitives no exotic boxed properties). -/
theorem c2_reducer_equivalent_resolution :
    ∀ (path : List String) (attrs : JsValue) (n : Rat),
      reduceResolve attrs path = .vNum n ↔
        getValueByPath attrs path = some ⟨.vNum n, true⟩ := by
  intro path
  induction path with
  | nil =>
    intro attrs n
    rw [reduceResolve_nil]
    constructor
    · intro h
      rw [h]
      rfl
    · intro h
      simp only [getValueByPath, Option.some.injEq, ResolutionResult.mk.injEq] at h
      exact h.1
  | cons key rest ih =>
    intro attrs n
    rw [reduceResolve_cons]
    cases attrs with
    | vNull =>
      simp [JsValue.truthy, reduceResolve_undefined, getValueByPath, jsIndex]
    | vUndefined =>
      simp [JsValue.truthy, reduceResolve_undefined, getValueByPath, jsIndex]
    | vBool b =>
      simp [JsValue.truthy, jsGet, reduceResolve_undefined, getValueByPath, jsIndex]
    | vNum q =>
      simp [JsValue.truthy, jsGet, reduceResolve_undefined, getValueByPath, jsIndex]
    | vStr s =>
      simp [JsValue.truthy, jsGet, reduceResolve_undefined, getValueByPath, jsIndex]
    | vObj fields =>
      have ht : (JsValue.vObj fields).truthy = true := rfl
      rw [if_pos ht]
      cases hv : jsGet (.vObj fields) key with
      | vNull =>
        simp only [getValueByPath, jsIndex, hv]
        exact ih .vNull n
      | vUndefined =>
        rw [reduceResolve_undefined]
        simp [getValueByPath, jsIndex, hv]
      | vBool b =>
        simp only [getValueByPath, jsIndex, hv]
        exact ih (.vBool b) n
      | vNum q =>
        simp only [getValueByPath, jsIndex, hv]
        exact ih (.vNum q) n
      | vStr s =>
        simp only [getValueByPath, jsIndex, hv]
        exact ih (.vStr s) n
      | vObj f2 =>
        simp only [getValueByPath, jsIndex, hv]
        exact ih (.vObj f2) n

/-! ### Association-list lemmas for the aggregation states -/

theorem getEntry_append {α : Type} (st l2 : List (String × α)) (k : String) :
    getEntry (st ++ l2) k = (getEntry st k).or (getEntry l2 k) := by
  induction st with
  | nil => simp [getEntry]
  | cons kv rest ih =>
    obtain ⟨k0, v0⟩ := kv
    by_cases hk : k0 = k
    · simp [getEntry, hk]
    · simpa [getEntry, hk] using ih

theorem getEntry_eq_none_iff {α : Type} (st : List (String × α)) (k : String) :
    getEntry st k = none ↔ k ∉ st.map Prod.fst := by
  induction st with
  | nil => simp [getEntry]
  | cons kv rest ih =>
    obtain ⟨k0, v0⟩ := kv
    by_cases hk : k0 = k
    · simp [getEntry, hk]
    · simpa [getEntry, hk, Ne.symm hk] using ih

theorem getEntry_mem {α : Type} (st : List (String × α)) (k : String) (v : α)
    (h : getEntry st k = some v) : (k, v) ∈ st := by
  induction st with
  | nil => simp [getEntry] at h
  | cons kv rest ih =>
    obtain ⟨k0, v0⟩ := kv
    by_cases hk : k0 = k
    · rw [getEntry, if_pos hk] at h
      cases h
      subst hk
      exact List.mem_cons_self _ _
    · rw [getEntry, if_neg hk] at h
      exact List.mem_cons_of_mem _ (ih h)

theorem mem_getEntry {α : Type} (st : List (String × α)) (k : String) (v : α)
    (hnd : (st.map Prod.fst).Nodup) (h : (k, v) ∈ st) : getEntry st k = some v := by
  induction st with
  | nil => simp at h
  | cons kv rest ih =>
    obtain ⟨k0, v0⟩ := kv
    simp only [List.map_cons, List.nodup_cons] at hnd
    rcases List.mem_cons.mp h with h0 | h0
    · cases h0
      simp [getEntry]
    · have hk : k0 ≠ k := by
        intro he
        subst he
        exact hnd.1 (List.mem_map.mpr ⟨(k0, v), h0, rfl⟩)
      rw [getEntry, if_neg hk]
      exact ih hnd.2 h0

theorem addSessionId_keys (st : List (String × List JsValue)) (key : String) (sid : JsValue) :
    (addSessionId st key sid).map Prod.fst = st.map Prod.fst := by
  induction st with
  | nil => rfl
  | cons kv rest ih =>
    obtain ⟨k0, s0⟩ := kv
    by_cases hk : k0 = key
    · simp [addSessionId, hk]
    · simp [addSessionId, hk, ih]

theorem getEntry_addSessionId_ne (st : List (String × List JsValue)) (key k : String)
    (sid : JsValue) (hk : k ≠ key) :
    getEntry (addSessionId st key sid) k = getEntry st k := by
  induction st with
  | nil => rfl
  | cons kv rest ih =>
    obtain ⟨k0, s0⟩ := kv
    by_cases h0 : k0 = key
    · have : k0 ≠ k := fun he => hk (he ▸ h0)
      simp [addSessionId, h0, getEntry, this, Ne.symm hk]
    · by_cases h1 : k0 = k
      · simp [addSessionId, h0, getEntry, h1, hk]
      · simp [addSessionId, h0, getEntry, h1, hk, ih]

theorem getEntry_addSessionId_self (st : List (String × List JsValue)) (key : String)
    (sid : JsValue) :
    getEntry (addSessionId st key sid) key
      = (getEntry st key).map (fun s => if sid ∈ s then s else s ++ [sid]) := by
  induction st with
  | nil => rfl
  | cons kv rest ih =>
    obtain ⟨k0, s0⟩ := kv
    by_cases h0 : k0 = key
    · simp [addSessionId, h0, getEntry]
    · simp [addSessionId, h0, getEntry, ih]

/-- A duplicate-free list has the length of the deduplication of any
list with the same members. -/
theorem length_eq_dedup_length {α : Type} [DecidableEq α] {l m : List α} (hn : l.Nodup)
    (hm : ∀ x, x ∈ l ↔ x ∈ m) : l.length = m.dedup.length := by
  calc l.length = l.dedup.length := by rw [List.Nodup.dedup hn]
    _ = l.toFinset.card := (List.card_toFinset l).symm
    _ = m.toFinset.card := by
        congr 1
        ext x
        simp only [List.mem_toFinset]
        exact hm x
    _ = m.dedup.length := List.card_toFinset m

/-! ### The grouped-count loop invariant -/

theorem contributes_iff (groupBy k : String) (e : RumEvent) :
    contributes groupBy k e = true ↔
      e.attrs.truthy = true ∧ eventGroupKey groupBy e = some k := by
  simp [contributes]

theorem groupSessionIds_append (groupBy k : String) (p q : List RumEvent) :
    groupSessionIds groupBy k (p ++ q)
      = groupSessionIds groupBy k p ++ groupSessionIds groupBy k q := by
  simp [groupSessionIds, List.filter_append, List.filterMap_append]

theorem groupSessionIds_singleton (groupBy k : String) (e : RumEvent) :
    groupSessionIds groupBy k [e]
      = if contributes groupBy k e then (eventSessionId e).toList else [] := by
  by_cases h : contributes groupBy k e
  · cases hs : eventSessionId e <;>
      simp [groupSessionIds, List.filter_cons, h, List.filterMap_cons, hs]
  · simp [groupSessionIds, List.filter_cons, h]

theorem gecStep_eq {groupBy : String} {e : RumEvent} (st : List (String × List JsValue))
    {r : ResolutionResult} (ht : e.attrs.truthy = true)
    (hr : getValueByPath e.attrs (jsSplitDot groupBy) = some r) :
    gecStep groupBy st e
      = some (gecUpdate st (if r.found then jsString r.value else "unknown")
          (sessionIdOf e.attrs)) := by
  rw [gecStep, ht, hr]
  simp [gecUpdate]

theorem gecStep_skip {groupBy : String} {e : RumEvent} (st : List (String × List JsValue))
    (ht : e.attrs.truthy = false) : gecStep groupBy st e = some st := by
  rw [gecStep, ht]
  simp

/-- The invariant is preserved by the state update of a usable event. -/
theorem gecUpdate_inv {groupBy : String} {p : List RumEvent} {st : List (String × List JsValue)}
    {e : RumEvent} {gv : String} {sid : JsValue} (hinv : GecInv groupBy p st)
    (ht : e.attrs.truthy = true) (hekey : eventGroupKey groupBy e = some gv)
    (hsid : sessionIdOf e.attrs = sid) :
    GecInv groupBy (p ++ [e]) (gecUpdate st gv sid) := by
  obtain ⟨hnd, hkeys, hsets⟩ := hinv
  -- facts about the state after group creation
  have hself1 : getEntry (if (getEntry st gv).isSome then st else st ++ [(gv, [])]) gv
      = some ((getEntry st gv).getD []) := by
    by_cases hp : (getEntry st gv).isSome
    · rw [if_pos hp]
      obtain ⟨l, hl⟩ := Option.isSome_iff_exists.mp hp
      rw [hl]
      rfl
    · rw [if_neg hp, getEntry_append, Option.not_isSome_iff_eq_none.mp hp]
      simp [getEntry]
  have hne1 : ∀ k, k ≠ gv →
      getEntry (if (getEntry st gv).isSome then st else st ++ [(gv, [])]) k = getEntry st k := by
    intro k hk
    by_cases hp : (getEntry st gv).isSome
    · rw [if_pos hp]
    · rw [if_neg hp, getEntry_append]
      have h2 : getEntry [(gv, ([] : List JsValue))] k = none := by
        simp [getEntry, Ne.symm hk]
      rw [h2]
      cases getEntry st k <;> rfl
  have hnd1 : (((if (getEntry st gv).isSome then st else st ++ [(gv, [])])).map Prod.fst).Nodup := by
    by_cases hp : (getEntry st gv).isSome
    · rw [if_pos hp]
      exact hnd
    · rw [if_neg hp, List.map_append, List.nodup_append]
      have hgv : gv ∉ st.map Prod.fst := by
        rw [← getEntry_eq_none_iff]
        exact Option.not_isSome_iff_eq_none.mp hp
      refine ⟨hnd, by simp, ?_⟩
      intro a ha hb
      simp at hb
      subst hb
      exact hgv ha
  -- the old set for gv and how the contributed ids extend
  have hold : ((getEntry st gv).getD []).Nodup ∧
      ∀ x : JsValue, x ∈ (getEntry st gv).getD [] ↔ x ∈ groupSessionIds groupBy gv p := by
    cases hg : getEntry st gv with
    | none =>
      have hnone : ¬ ∃ e' ∈ p, e'.attrs.truthy = true ∧ eventGroupKey groupBy e' = some gv := by
        rw [← hkeys gv, hg]
        simp
      have hempty : groupSessionIds groupBy gv p = [] := by
        rw [groupSessionIds, List.filter_eq_nil_iff.mpr, List.filterMap_nil]
        intro e' he' hc
        exact hnone ⟨e', he', (contributes_iff groupBy gv e').mp hc⟩
      simp [hempty]
    | some lold =>
      simpa using hsets gv lold hg
  have hcontrib : contributes groupBy gv e = true := by
    rw [contributes_iff]
    exact ⟨ht, hekey⟩
  have hnewids : groupSessionIds groupBy gv (p ++ [e])
      = groupSessionIds groupBy gv p ++ (eventSessionId e).toList := by
    rw [groupSessionIds_append, groupSessionIds_singleton, if_pos hcontrib]
  have hexne : ∀ k, k ≠ gv →
      ((∃ e' ∈ p ++ [e], e'.attrs.truthy = true ∧ eventGroupKey groupBy e' = some k) ↔
        (∃ e' ∈ p, e'.attrs.truthy = true ∧ eventGroupKey groupBy e' = some k)) := by
    intro k hk
    constructor
    · rintro ⟨e', he', hp'⟩
      rcases List.mem_append.mp he' with h | h
      · exact ⟨e', h, hp'⟩
      · rw [List.mem_singleton] at h
        subst h
        rw [hekey] at hp'
        exact absurd (Option.some_inj.mp hp'.2) (Ne.symm hk)
    · rintro ⟨e', he', hp'⟩
      exact ⟨e', List.mem_append_left _ he', hp'⟩
  have hcomp3ne : ∀ k l, k ≠ gv → getEntry st k = some l →
      l.Nodup ∧ ∀ x : JsValue, x ∈ l ↔ x ∈ groupSessionIds groupBy k (p ++ [e]) := by
    intro k l hk hl
    obtain ⟨hln, hlm⟩ := hsets k l hl
    refine ⟨hln, fun x => ?_⟩
    rw [hlm x, groupSessionIds_append, groupSessionIds_singleton]
    have hc : contributes groupBy k e = false := by
      simp [contributes, hekey, Ne.symm hk]
    rw [hc]
    simp
  have hexgv : ∃ e' ∈ p ++ [e], e'.attrs.truthy = true ∧ eventGroupKey groupBy e' = some gv :=
    ⟨e, List.mem_append_right _ (List.mem_singleton_self e), ht, hekey⟩
  rw [gecUpdate]
  by_cases hs : sid.truthy = true
  case pos =>
    have hside : eventSessionId e = some sid := by
      rw [eventSessionId, hsid, if_pos hs]
    rw [if_pos hs]
    refine ⟨?_, fun k => ?_, fun k l hl => ?_⟩
    · rw [addSessionId_keys]
      exact hnd1
    · by_cases hk : k = gv
      · subst hk
        rw [getEntry_addSessionId_self, hself1]
        simp only [Option.map_some', Option.isSome_some, true_iff]
        exact hexgv
      · rw [getEntry_addSessionId_ne _ _ _ _ hk, hne1 k hk, hkeys k]
        exact (hexne k hk).symm
    · by_cases hk : k = gv
      · subst hk
        rw [getEntry_addSessionId_self, hself1, Option.map_some', Option.some_inj] at hl
        subst hl
        rw [hnewids, hside]
        by_cases hmem : sid ∈ (getEntry st k).getD []
        · rw [if_pos hmem]
          refine ⟨hold.1, fun x => ?_⟩
          rw [List.mem_append]
          constructor
          · intro hx
            exact Or.inl ((hold.2 x).mp hx)
          · rintro (hx | hx)
            · exact (hold.2 x).mpr hx
            · rw [Option.toList_some, List.mem_singleton] at hx
              subst hx
              exact hmem
        · rw [if_neg hmem]
          constructor
          · rw [List.nodup_append]
            refine ⟨hold.1, by simp, ?_⟩
            intro a ha hb
            simp at hb
            subst hb
            exact hmem ha
          · intro x
            rw [List.mem_append, List.mem_append]
            simp only [Option.toList_some, List.mem_singleton]
            rw [hold.2 x]
      · rw [getEntry_addSessionId_ne _ _ _ _ hk, hne1 k hk] at hl
        exact hcomp3ne k l hk hl
  case neg =>
    have hside : eventSessionId e = none := by
      rw [eventSessionId, hsid, if_neg hs]
    rw [if_neg hs]
    refine ⟨hnd1, fun k => ?_, fun k l hl => ?_⟩
    · by_cases hk : k = gv
      · subst hk
        rw [hself1]
        simp only [Option.isSome_some, true_iff]
        exact hexgv
      · rw [hne1 k hk, hkeys k]
        exact (hexne k hk).symm
    · by_cases hk : k = gv
      · subst hk
        rw [hself1, Option.some_inj] at hl
        subst hl
        rw [hnewids, hside]
        simpa using hold
      · rw [hne1 k hk] at hl
        exact hcomp3ne k l hk hl

/-- The invariant is preserved by one iteration of the event loop. -/
theorem gecStep_inv {groupBy : String} {p : List RumEvent} {st st' : List (String × List JsValue)}
    {e : RumEvent} (hinv : GecInv groupBy p st) (hstep : gecStep groupBy st e = some st') :
    GecInv groupBy (p ++ [e]) st' := by
  by_cases ht : e.attrs.truthy = true
  case neg =>
    obtain ⟨hnd, hkeys, hsets⟩ := hinv
    have ht' : e.attrs.truthy = false := by simpa using ht
    rw [gecStep_skip st ht'] at hstep
    cases hstep
    have hc : ∀ k, contributes groupBy k e = false := fun k => by simp [contributes, ht']
    refine ⟨hnd, fun k => ?_, fun k l hl => ?_⟩
    · rw [hkeys k]
      constructor
      · rintro ⟨e', he', hp⟩
        exact ⟨e', List.mem_append_left _ he', hp⟩
      · rintro ⟨e', he', hp⟩
        rcases List.mem_append.mp he' with h | h
        · exact ⟨e', h, hp⟩
        · rw [List.mem_singleton] at h
          subst h
          exact absurd hp.1 (by simp [ht'])
    · obtain ⟨hln, hlm⟩ := hsets k l hl
      refine ⟨hln, fun x => ?_⟩
      rw [hlm x, groupSessionIds_append, groupSessionIds_singleton, hc k]
      simp
  case pos =>
    cases hr : getValueByPath e.attrs (jsSplitDot groupBy) with
    | none =>
      rw [gecStep, ht, hr] at hstep
      simp at hstep
    | some r =>
      rw [gecStep_eq st ht hr, Option.some_inj] at hstep
      subst hstep
      exact gecUpdate_inv hinv ht (by simp [eventGroupKey, hr]) rfl

/-- The invariant holds initially: no events processed, empty map. -/
theorem gecInv_nil (groupBy : String) : GecInv groupBy [] [] := by
  refine ⟨by simp, fun k => ?_, fun k l hl => ?_⟩
  · simp [getEntry]
  · simp [getEntry] at hl

/-- The invariant extends along the whole event fold. -/
theorem gec_fold_inv {groupBy : String} :
    ∀ (events p : List RumEvent) (st st' : List (String × List JsValue)),
      GecInv groupBy p st → events.foldlM (gecStep groupBy) st = some st' →
      GecInv groupBy (p ++ events) st' := by
  intro events
  induction events with
  | nil =>
    intro p st st' hinv hfold
    simp only [List.foldlM_nil] at hfold
    cases hfold
    simpa using hinv
  | cons e rest ih =>
    intro p st st' hinv hfold
    rw [List.foldlM_cons] at hfold
    obtain ⟨st1, hstep, hrest⟩ := Option.bind_eq_some.mp hfold
    have h1 := gecStep_inv hinv hstep
    have h2 := ih (p ++ [e]) st1 st' h1 hrest
    simpa [List.append_assoc] using h2

/-- The final state of the grouped-count aggregation satisfies the
invariant over all events. -/
theorem gec_final_inv {events : List RumEvent} {groupBy : String}
    {res : List (String × Nat)} (h : get_rum_grouped_event_count events groupBy = some res) :
    ∃ st, GecInv groupBy events st ∧ res = st.map (fun kv => (kv.1, kv.2.length)) := by
  rw [get_rum_grouped_event_count] at h
  obtain ⟨st, hfold, hres⟩ := Option.bind_eq_some.mp h
  refine ⟨st, ?_, ?_⟩
  · have hinv := gec_fold_inv events [] [] st (gecInv_nil groupBy) hfold
    simpa using hinv
  · simpa using hres.symm

/-- Every reported count is the number of distinct contributed session
ids of its group. -/
theorem grouped_count_spec {events : List RumEvent} {groupBy : String}
    {res : List (String × Nat)} (h : get_rum_grouped_event_count events groupBy = some res)
    (k : String) (n : Nat) (hkn : (k, n) ∈ res) :
    n = (groupSessionIds groupBy k events).dedup.length := by
  obtain ⟨st, ⟨hnd, hkeys, hsets⟩, hres⟩ := gec_final_inv h
  subst hres
  rw [List.mem_map] at hkn
  obtain ⟨⟨k', l⟩, hmem, heq⟩ := hkn
  injection heq with h1 h2
  subst h1
  subst h2
  have hget := mem_getEntry st k' l hnd hmem
  obtain ⟨hln, hlm⟩ := hsets k' l hget
  exact length_eq_dedup_length hln hlm

/-- A group key is reported exactly when some usable event resolves to
it. -/
theorem grouped_count_keys {events : List RumEvent} {groupBy : String}
    {res : List (String × Nat)} (h : get_rum_grouped_event_count events groupBy = some res)
    (k : String) :
    (∃ n, (k, n) ∈ res) ↔
      ∃ e ∈ events, e.attrs.truthy = true ∧ eventGroupKey groupBy e = some k := by
  obtain ⟨st, ⟨hnd, hkeys, hsets⟩, hres⟩ := gec_final_inv h
  subst hres
  rw [← hkeys k]
  constructor
  · rintro ⟨n, hkn⟩
    rw [List.mem_map] at hkn
    obtain ⟨⟨k', l⟩, hmem, heq⟩ := hkn
    injection heq with h1 h2
    subst h1
    rw [mem_getEntry st k' l hnd hmem]
    rfl
  · intro hsome
    obtain ⟨l, hl⟩ := Option.isSome_iff_exists.mp hsome
    refine ⟨l.length, ?_⟩
    rw [List.mem_map]
    exact ⟨(k, l), getEntry_mem st k l hl, rfl⟩

/-! ### Claims C3, C4, C5, C10 -/

/-- **C3**: the count `get_rum_grouped_event_count` reports for each
group key equals the number of distinct session identifiers (resolved at
the fixed path `session.id`, counted only when truthy) among the events
of that group — not the raw event count. -/
theorem c3_grouped_count_distinct_sessions (events : List RumEvent) (groupBy : String)
    (res : List (String × Nat)) (h : get_rum_grouped_event_count events groupBy = some res)
    (k : String) (n : Nat) (hkn : (k, n) ∈ res) :
    n = (groupSessionIds groupBy k events).dedup.length :=
  grouped_count_spec h k n hkn

/-- **C3** witness: two `"US"` events sharing session `"s1"` and one
`"FR"` event with session `"s2"` count as `{US: 1, FR: 1}` — the two
same-session events yield 1, not 2. -/
theorem c3_witness :
    get_rum_grouped_event_count
        [exGeoSession "US" "s1", exGeoSession "US" "s1", exGeoSession "FR" "s2"] "geo.country"
      = some [("US", 1), ("FR", 1)] ∧
    1 = (groupSessionIds "geo.country" "US"
        [exGeoSession "US" "s1", exGeoSession "US" "s1", exGeoSession "FR" "s2"]).dedup.length :=
  ⟨by decide,
   c3_grouped_count_distinct_sessions
     [exGeoSession "US" "s1", exGeoSession "US" "s1", exGeoSession "FR" "s2"] "geo.country"
     [("US", 1), ("FR", 1)] (by decide) "US" 1 (by decide)⟩

/-- **C4**: a usable event whose groupBy path resolves with
`found = false` is filed under the literal key `"unknown"`; when the
path resolves with `found = true`, the group key is the stringified
resolved value. -/
theorem c4_grouping_fallback_unknown (events : List RumEvent) (groupBy : String)
    (res : List (String × Nat)) (h : get_rum_grouped_event_count events groupBy = some res)
    (e : RumEvent) (he : e ∈ events) (ht : e.attrs.truthy = true) :
    (∀ v : JsValue, getValueByPath e.attrs (jsSplitDot groupBy) = some ⟨v, false⟩ →
        ∃ n, ("unknown", n) ∈ res) ∧
    (∀ v : JsValue, getValueByPath e.attrs (jsSplitDot groupBy) = some ⟨v, true⟩ →
        ∃ n, (jsString v, n) ∈ res) := by
  constructor
  · intro v hv
    rw [grouped_count_keys h "unknown"]
    exact ⟨e, he, ht, by simp [eventGroupKey, hv]⟩
  · intro v hv
    rw [grouped_count_keys h (jsString v)]
    exact ⟨e, he, ht, by simp [eventGroupKey, hv]⟩

/-- **C4** witness: `{geo: {country: "DE"}}` grouped by
`"application.id"` lands under `"unknown"`; grouped by `"geo.country"`
it lands under the stringified value `"DE"`. -/
theorem c4_witness :
    get_rum_grouped_event_count [exGeoOnly "DE"] "application.id" = some [("unknown", 0)] ∧
    (∃ n, ("unknown", n) ∈ [("unknown", 0)]) ∧
    (∃ n, (jsString (.vStr "DE"), n) ∈ [("DE", 0)]) :=
  ⟨by decide,
   (c4_grouping_fallback_unknown [exGeoOnly "DE"] "application.id" [("unknown", 0)]
     (by decide) (exGeoOnly "DE") (by decide) (by decide)).1 .vNull (by decide),
   (c4_grouping_fallback_unknown [exGeoOnly "DE"] "geo.country" [("DE", 0)]
     (by decide) (exGeoOnly "DE") (by decide) (by decide)).2 (.vStr "DE") (by decide)⟩

/-- **C5**: a group key reached by at least one usable event still
appears in the result with count `0` when no event of that group
carries a (truthy) session id. -/
theorem c5_group_key_with_zero_count (events : List RumEvent) (groupBy : String)
    (res : List (String × Nat)) (h : get_rum_grouped_event_count events groupBy = some res)
    (k : String) (e : RumEvent) (he : e ∈ events) (ht : e.attrs.truthy = true)
    (hekey : eventGroupKey groupBy e = some k)
    (hnos : ∀ e' ∈ events, contributes groupBy k e' = true → eventSessionId e' = none) :
    (k, 0) ∈ res := by
  obtain ⟨n, hkn⟩ := (grouped_count_keys h k).mpr ⟨e, he, ht, hekey⟩
  have hn := grouped_count_spec h k n hkn
  have hempty : groupSessionIds groupBy k events = [] := by
    rw [groupSessionIds, List.filterMap_eq_nil_iff]
    intro e' he'
    rw [List.mem_filter] at he'
    exact hnos e' he'.1 he'.2
  rw [hempty] at hn
  simp only [List.dedup_nil, List.length_nil] at hn
  subst hn
  exact hkn

/-- **C5** witness: scenario S2 — a single event resolving to `"DE"`
with no session id yields the reported entry `("DE", 0)`. -/
theorem c5_witness : ("DE", 0) ∈ [("DE", (0 : Nat))] :=
  c5_group_key_with_zero_count [exGeoOnly "DE"] "geo.country" [("DE", 0)] (by decide)
    "DE" (exGeoOnly "DE") (by decide) (by decide) (by decide) (by decide)

/-- **C10**: presence of a session id is decided by truthiness, not key
existence — an appended event whose resolved `session.id` is falsy (the
empty string, null, undefined, 0) adds no session id to any group, so
every reported count equals the distinct-session count of the other
events alone. -/
theorem c10_falsy_session_id_not_counted (events : List RumEvent) (e : RumEvent)
    (groupBy : String) (res : List (String × Nat))
    (hfalsy : (sessionIdOf e.attrs).truthy = false)
    (h : get_rum_grouped_event_count (events ++ [e]) groupBy = some res)
    (k : String) (n : Nat) (hkn : (k, n) ∈ res) :
    n = (groupSessionIds groupBy k events).dedup.length := by
  have h1 := grouped_count_spec h k n hkn
  rw [groupSessionIds_append, groupSessionIds_singleton] at h1
  have hnone : eventSessionId e = none := by
    rw [eventSessionId, if_neg (by simp [hfalsy])]
  rw [hnone] at h1
  simpa using h1

/-- **C10** witness: an event with the empty string as session id
produces the entry `("DE", 0)`, the count ignoring its session id. -/
theorem c10_witness :
    (sessionIdOf (exGeoSession "DE" "").attrs).truthy = false ∧
    get_rum_grouped_event_count ([] ++ [exGeoSession "DE" ""]) "geo.country"
      = some [("DE", 0)] ∧
    0 = (groupSessionIds "geo.country" "DE" []).dedup.length :=
  ⟨by decide, by decide,
   c10_falsy_session_id_not_counted [] (exGeoSession "DE" "") "geo.country" [("DE", 0)]
     (by decide) (by decide) "DE" 0 (by decide)⟩

/-! ### Lemmas for the metric summarizer -/

theorem getEntry_setEntry_self {α : Type} (m : List (String × α)) (k : String) (v : α) :
    getEntry (setEntry m k v) k = some v := by
  induction m with
  | nil => simp [setEntry, getEntry]
  | cons kv rest ih =>
    obtain ⟨k0, v0⟩ := kv
    by_cases hk : k0 = k
    · simp [setEntry, hk, getEntry]
    · simp [setEntry, hk, getEntry, ih]

theorem getEntry_setEntry_ne {α : Type} (m : List (String × α)) (k k' : String) (v : α)
    (h : k' ≠ k) : getEntry (setEntry m k v) k' = getEntry m k' := by
  induction m with
  | nil => simp [setEntry, getEntry, Ne.symm h]
  | cons kv rest ih =>
    obtain ⟨k0, v0⟩ := kv
    by_cases hk : k0 = k
    · subst hk
      simp [setEntry, getEntry, Ne.symm h]
    · by_cases hk' : k0 = k'
      · simp [setEntry, hk, getEntry, hk', h]
      · simp [setEntry, hk, getEntry, hk', ih]

theorem getEntry_initMetrics (names : List String) (name : String) :
    getEntry (initMetrics names) name = if name ∈ names then some [] else none := by
  suffices h : ∀ (ns : List String) (m0 : List (String × List Rat)),
      getEntry (ns.foldl (fun acc n => setEntry acc n []) m0) name
        = if name ∈ ns then some [] else getEntry m0 name by
    simpa [initMetrics, getEntry] using h names []
  intro ns
  induction ns with
  | nil => intro m0; simp
  | cons n ns ih =>
    intro m0
    rw [List.foldl_cons, ih (setEntry m0 n [])]
    by_cases hn : name ∈ ns
    · simp [hn, List.mem_cons]
    · by_cases he : n = name
      · subst he
        simp [hn, getEntry_setEntry_self]
      · simp [hn, Ne.symm he, getEntry_setEntry_ne m0 n name [] (Ne.symm he), List.mem_cons]

/-- The dead `== null` guard of the inner loop never fires for a truthy
payload. -/
theorem collectMetricStep_eq (e : RumEvent) (ht : e.attrs.truthy = true)
    (m : List (String × List Rat)) (name : String) :
    collectMetricStep e m name
      = match reduceResolve e.attrs (jsSplitDot name) with
        | .vNum q => pushMetric m name q
        | _ => m := by
  obtain ⟨attrs⟩ := e
  cases attrs with
  | vNull => simp [JsValue.truthy] at ht
  | vUndefined => simp [JsValue.truthy] at ht
  | vBool b => rfl
  | vNum q => rfl
  | vStr s => rfl
  | vObj fields => rfl

theorem getEntry_collectMetricStep_self (e : RumEvent) (ht : e.attrs.truthy = true)
    (m : List (String × List Rat)) (name : String) (l : List Rat)
    (hm : getEntry m name = some l) :
    getEntry (collectMetricStep e m name) name = some (l ++ metricContribution name e) := by
  rw [collectMetricStep_eq e ht, metricContribution]
  cases hres : reduceResolve e.attrs (jsSplitDot name) with
  | vNum q =>
    show getEntry (pushMetric m name q) name = some (l ++ [q])
    simp only [pushMetric, hm, Option.getD_some]
    rw [getEntry_setEntry_self]
  | vNull => simpa using hm
  | vUndefined => simpa using hm
  | vBool b => simpa using hm
  | vStr s => simpa using hm
  | vObj fields => simpa using hm

theorem getEntry_collectMetricStep_ne (e : RumEvent) (m : List (String × List Rat))
    (n name : String) (hne : name ≠ n) :
    getEntry (collectMetricStep e m n) name = getEntry m name := by
  obtain ⟨attrs⟩ := e
  cases attrs with
  | vNull => rfl
  | vUndefined => rfl
  | vBool b =>
    rw [collectMetricStep]
    cases reduceResolve (JsValue.vBool b) (jsSplitDot n) <;>
      simp [pushMetric, getEntry_setEntry_ne _ _ _ _ hne]
  | vNum q =>
    rw [collectMetricStep]
    cases reduceResolve (JsValue.vNum q) (jsSplitDot n) <;>
      simp [pushMetric, getEntry_setEntry_ne _ _ _ _ hne]
  | vStr s =>
    rw [collectMetricStep]
    cases reduceResolve (JsValue.vStr s) (jsSplitDot n) <;>
      simp [pushMetric, getEntry_setEntry_ne _ _ _ _ hne]
  | vObj fields =>
    rw [collectMetricStep]
    cases reduceResolve (JsValue.vObj fields) (jsSplitDot n) <;>
      simp [pushMetric, getEntry_setEntry_ne _ _ _ _ hne]

theorem getEntry_collectEventMetrics (e : RumEvent) (ht : e.attrs.truthy = true) :
    ∀ (names : List String) (m : List (String × List Rat)) (name : String) (l : List Rat),
      names.Nodup → getEntry m name = some l →
      getEntry (collectEventMetrics names m e) name
        = some (l ++ if name ∈ names then metricContribution name e else []) := by
  intro names
  induction names with
  | nil =>
    intro m name l _ hm
    simpa [collectEventMetrics] using hm
  | cons n ns ih =>
    intro m name l hnd hm
    obtain ⟨hn, hns⟩ := List.nodup_cons.mp hnd
    have hunfold : collectEventMetrics (n :: ns) m e
        = collectEventMetrics ns (collectMetricStep e m n) e := rfl
    rw [hunfold]
    by_cases heq : n = name
    · subst heq
      have h1 := getEntry_collectMetricStep_self e ht m n l hm
      have h2 := ih (collectMetricStep e m n) n (l ++ metricContribution n e) hns h1
      rw [h2]
      simp [hn]
    · have h1 : getEntry (collectMetricStep e m n) name = some l := by
        rw [getEntry_collectMetricStep_ne e m n name (Ne.symm heq), hm]
      have h2 := ih (collectMetricStep e m n) name l hns h1
      rw [h2]
      simp [List.mem_cons, Ne.symm heq]

theorem getEntry_scanEvents {names : List String} (hnd : names.Nodup) (name : String)
    (hmem : name ∈ names) (events : List RumEvent) :
    getEntry (scanEvents names events) name = some (metricSeries name events) := by
  suffices h : ∀ (evs : List RumEvent) (m : List (String × List Rat)) (l : List Rat),
      getEntry m name = some l →
      getEntry (evs.foldl
          (fun metrics e =>
            if e.attrs.truthy then collectEventMetrics names metrics e else metrics) m) name
        = some (l ++ metricSeries name evs) by
    have hinit : getEntry (initMetrics names) name = some [] := by
      rw [getEntry_initMetrics, if_pos hmem]
    simpa [scanEvents] using h events (initMetrics names) [] hinit
  intro evs
  induction evs with
  | nil =>
    intro m l hm
    simpa [metricSeries] using hm
  | cons e es ih =>
    intro m l hm
    rw [List.foldl_cons]
    by_cases ht : e.attrs.truthy = true
    · rw [if_pos ht]
      have h1 := getEntry_collectEventMetrics e ht names m name l hnd hm
      rw [if_pos hmem] at h1
      have h2 := ih _ _ h1
      rw [h2, metricSeries, if_pos ht, List.append_assoc]
    · rw [if_neg ht]
      have h2 := ih m l hm
      rw [h2, metricSeries, if_neg ht]
      simp

theorem getEntry_map_summarize (m : List (String × List Rat)) (name : String) :
    getEntry (m.map (fun kv => (kv.1, summarizeSeries kv.2))) name
      = (getEntry m name).map summarizeSeries := by
  induction m with
  | nil => rfl
  | cons kv rest ih =>
    obtain ⟨k0, v0⟩ := kv
    by_cases hk : k0 = name
    · simp [getEntry, hk]
    · simp [getEntry, hk, ih]

theorem foldl_min_le_init (xs : List Rat) : ∀ a : Rat, xs.foldl min a ≤ a := by
  induction xs with
  | nil => intro a; exact le_refl a
  | cons x xs ih =>
    intro a
    exact le_trans (ih (min a x)) (min_le_left a x)

theorem foldl_min_mem (xs : List Rat) : ∀ a : Rat, xs.foldl min a = a ∨ xs.foldl min a ∈ xs := by
  induction xs with
  | nil => intro a; exact Or.inl rfl
  | cons x xs ih =>
    intro a
    rcases ih (min a x) with h | h
    · rcases min_choice a x with hm | hm
      · exact Or.inl (by rw [List.foldl_cons, h, hm])
      · refine Or.inr ?_
        rw [List.foldl_cons, h, hm]
        exact List.mem_cons_self x xs
    · exact Or.inr (List.mem_cons_of_mem x h)

theorem foldl_min_le (xs : List Rat) : ∀ (a y : Rat), y ∈ xs → xs.foldl min a ≤ y := by
  induction xs with
  | nil => intro a y hy; simp at hy
  | cons x xs ih =>
    intro a y hy
    rcases List.mem_cons.mp hy with h | h
    · subst h
      exact le_trans (foldl_min_le_init xs (min a y)) (min_le_right a y)
    · exact ih (min a x) y h

theorem foldl_max_init_le (xs : List Rat) : ∀ a : Rat, a ≤ xs.foldl max a := by
  induction xs with
  | nil => intro a; exact le_refl a
  | cons x xs ih =>
    intro a
    exact le_trans (le_max_left a x) (ih (max a x))

theorem foldl_max_mem (xs : List Rat) : ∀ a : Rat, xs.foldl max a = a ∨ xs.foldl max a ∈ xs := by
  induction xs with
  | nil => intro a; exact Or.inl rfl
  | cons x xs ih =>
    intro a
    rcases ih (max a x) with h | h
    · rcases max_choice a x with hm | hm
      · exact Or.inl (by rw [List.foldl_cons, h, hm])
      · refine Or.inr ?_
        rw [List.foldl_cons, h, hm]
        exact List.mem_cons_self x xs
    · exact Or.inr (List.mem_cons_of_mem x h)

theorem foldl_le_max (xs : List Rat) : ∀ (a y : Rat), y ∈ xs → y ≤ xs.foldl max a := by
  induction xs with
  | nil => intro a y hy; simp at hy
  | cons x xs ih =>
    intro a y hy
    rcases List.mem_cons.mp hy with h | h
    · subst h
      exact le_trans (le_max_right a y) (foldl_max_init_le xs (max a y))
    · exact ih (max a x) y h

/-- `Math.min(...values)` on a nonempty list is a member of it. -/
theorem mathMin_mem (x : Rat) (xs : List Rat) : mathMin (x :: xs) ∈ x :: xs := by
  rw [mathMin]
  rcases foldl_min_mem xs x with h | h
  · rw [h]
    exact List.mem_cons_self x xs
  · exact List.mem_cons_of_mem x h

/-- `Math.min(...values)` on a nonempty list is a lower bound of it. -/
theorem mathMin_le (x : Rat) (xs : List Rat) : ∀ y ∈ x :: xs, mathMin (x :: xs) ≤ y := by
  intro y hy
  rw [mathMin]
  rcases List.mem_cons.mp hy with h | h
  · subst h
    exact foldl_min_le_init xs y
  · exact foldl_min_le xs x y h

/-- `Math.max(...values)` on a nonempty list is a member of it. -/
theorem mathMax_mem (x : Rat) (xs : List Rat) : mathMax (x :: xs) ∈ x :: xs := by
  rw [mathMax]
  rcases foldl_max_mem xs x with h | h
  · rw [h]
    exact List.mem_cons_self x xs
  · exact List.mem_cons_of_mem x h

/-- `Math.max(...values)` on a nonempty list is an upper bound of it. -/
theorem mathMax_ge (x : Rat) (xs : List Rat) : ∀ y ∈ x :: xs, y ≤ mathMax (x :: xs) := by
  intro y hy
  rw [mathMax]
  rcases List.mem_cons.mp hy with h | h
  · subst h
    exact foldl_max_init_le xs y
  · exact foldl_le_max xs x y h

/-- `values.reduce((a, b) => a + b, 0)` computes the sum of the list. -/
theorem foldl_add_eq_sum (xs : List Rat) : ∀ a : Rat, xs.foldl (· + ·) a = a + xs.sum := by
  induction xs with
  | nil => intro a; simp
  | cons x xs ih =>
    intro a
    rw [List.foldl_cons, ih (a + x), List.sum_cons, add_assoc]

/-! ### Claims C6 and C7 -/

/-- **C6**: for every requested metric name (requested names assumed
pairwise distinct), `get_rum_page_performance` reports a summary; it is
exactly `{avg: 0, min: 0, max: 0, count: 0}` when the collected numeric
series is empty, and otherwise reports `avg = sum / count`, the minimum
and maximum of the series, and the series length as count. -/
theorem c6_metric_summary_zero_fill (events : List RumEvent) (metricNames : List String)
    (name : String) (hnd : metricNames.Nodup) (hmem : name ∈ metricNames) :
    ∃ s : MetricSummary,
      getEntry (get_rum_page_performance events metricNames) name = some s ∧
      (metricSeries name events = [] → s = ⟨0, 0, 0, 0⟩) ∧
      (metricSeries name events ≠ [] →
        s.avg = (metricSeries name events).sum / ((metricSeries name events).length : Rat) ∧
        s.min ∈ metricSeries name events ∧
        (∀ x ∈ metricSeries name events, s.min ≤ x) ∧
        s.max ∈ metricSeries name events ∧
        (∀ x ∈ metricSeries name events, x ≤ s.max) ∧
        s.count = (metricSeries name events).length) := by
  refine ⟨summarizeSeries (metricSeries name events), ?_, ?_, ?_⟩
  · rw [get_rum_page_performance, getEntry_map_summarize, getEntry_scanEvents hnd name hmem]
    rfl
  · intro h
    rw [h]
    rfl
  · intro h
    obtain ⟨x, xs, hxx⟩ := List.exists_cons_of_ne_nil h
    have hlen : 0 < (metricSeries name events).length := List.length_pos.mpr h
    rw [summarizeSeries, if_pos hlen]
    refine ⟨?_, ?_, ?_, ?_, ?_, rfl⟩
    · show (metricSeries name events).foldl (· + ·) 0 / ((metricSeries name events).length : Rat)
        = (metricSeries name events).sum / ((metricSeries name events).length : Rat)
      rw [foldl_add_eq_sum, zero_add]
    · show mathMin (metricSeries name events) ∈ metricSeries name events
      rw [hxx]
      exact mathMin_mem x xs
    · intro y hy
      show mathMin (metricSeries name events) ≤ y
      rw [hxx] at hy ⊢
      exact mathMin_le x xs y hy
    · show mathMax (metricSeries name events) ∈ metricSeries name events
      rw [hxx]
      exact mathMax_mem x xs
    · intro y hy
      show y ≤ mathMax (metricSeries name events)
      rw [hxx] at hy ⊢
      exact mathMax_ge x xs y hy

/-- **C6** witness: a request for `view.load_time` over one event whose
value is the string `"42"` collects an empty series and reports the
explicit zero-fill record. -/
theorem c6_witness :
    ["view.load_time"].Nodup ∧ "view.load_time" ∈ ["view.load_time"] ∧
    ∃ s : MetricSummary,
      getEntry (get_rum_page_performance [exViewStr "42"] ["view.load_time"]) "view.load_time"
        = some s ∧ s = ⟨0, 0, 0, 0⟩ := by
  refine ⟨by decide, by decide, ?_⟩
  obtain ⟨s, h1, h2, h3⟩ := c6_metric_summary_zero_fill [exViewStr "42"] ["view.load_time"]
    "view.load_time" (by decide) (by decide)
  exact ⟨s, h1, h2 (by decide)⟩

/-- **C7**: a metric series collected by `get_rum_page_performance` only
ever contains values that resolved to a strictly numeric value on some
scanned event; string values (even numeric-looking ones), booleans, and
absent values are never included. -/
theorem c7_series_strictly_numeric (events : List RumEvent) (metricNames : List String)
    (name : String) (l : List Rat) (hnd : metricNames.Nodup) (hmem : name ∈ metricNames)
    (hl : getEntry (scanEvents metricNames events) name = some l) :
    ∀ q ∈ l, ∃ e ∈ events, e.attrs.truthy = true ∧
      reduceResolve e.attrs (jsSplitDot name) = .vNum q := by
  rw [getEntry_scanEvents hnd name hmem, Option.some_inj] at hl
  subst hl
  intro q hq
  induction events with
  | nil => simp [metricSeries] at hq
  | cons e es ih =>
    rw [metricSeries, List.mem_append] at hq
    rcases hq with hq | hq
    · by_cases ht : e.attrs.truthy = true
      · rw [if_pos ht, metricContribution] at hq
        cases hres : reduceResolve e.attrs (jsSplitDot name) with
        | vNum q2 =>
          rw [hres] at hq
          rw [List.mem_singleton] at hq
          subst hq
          exact ⟨e, List.mem_cons_self e es, ht, hres⟩
        | vNull => rw [hres] at hq; simp at hq
        | vUndefined => rw [hres] at hq; simp at hq
        | vBool b => rw [hres] at hq; simp at hq
        | vStr s => rw [hres] at hq; simp at hq
        | vObj fields => rw [hres] at hq; simp at hq
      · rw [if_neg ht] at hq
        simp at hq
    · obtain ⟨e2, he2, h2⟩ := ih hq
      exact ⟨e2, List.mem_cons_of_mem e he2, h2⟩

/-- **C7** witness: scanning one numeric event (100) and one event
whose value is the string `"42"` collects exactly `[100]`, and the
element 100 traces back to a strictly numeric resolution. -/
theorem c7_witness :
    getEntry (scanEvents ["view.load_time"] [exViewNum 100, exViewStr "42"]) "view.load_time"
      = some [100] ∧
    ∃ e ∈ [exViewNum 100, exViewStr "42"], e.attrs.truthy = true ∧
      reduceResolve e.attrs (jsSplitDot "view.load_time") = .vNum 100 :=
  ⟨by decide,
   c7_series_strictly_numeric [exViewNum 100, exViewStr "42"] ["view.load_time"]
     "view.load_time" [100] (by decide) (by decide) (by decide) 100 (by decide)⟩

/-! ### Claim C8 -/

/-- **C8**: when the caller query is `"*"`, the grouped-count handler
derives an absent filter (`undefined`) and the page-performance handler
derives exactly `"@type:view"`; the literal `"*"` is never sent; any
other query is sent as-is by grouped count and prefixed with
`"@type:view "` by page performance. -/
theorem c8_wildcard_query_omission :
    groupedCountFilterQuery "*" = none ∧
    pagePerformanceFilterQuery "*" = "@type:view" ∧
    (∀ q : String, q ≠ "*" →
        groupedCountFilterQuery q = some q ∧
        pagePerformanceFilterQuery q = "@type:view " ++ q) ∧
    (∀ q : String, groupedCountFilterQuery q ≠ some "*") ∧
    (∀ q : String, pagePerformanceFilterQuery q ≠ "*") := by
  refine ⟨by decide, by decide, fun q hq => ?_, fun q => ?_, fun q => ?_⟩
  · rw [groupedCountFilterQuery, if_pos hq, pagePerformanceFilterQuery, if_pos hq]
    exact ⟨rfl, rfl⟩
  · by_cases hq : q ≠ "*"
    · rw [groupedCountFilterQuery, if_pos hq]
      intro h
      exact hq (Option.some_inj.mp h)
    · rw [groupedCountFilterQuery, if_neg hq]
      exact Option.noConfusion
  · by_cases hq : q ≠ "*"
    · rw [pagePerformanceFilterQuery, if_pos hq]
      intro h
      have h2 := congrArg String.length h
      rw [String.length_append] at h2
      rw [show ("@type:view " : String).length = 11 from rfl,
          show ("*" : String).length = 1 from rfl] at h2
      omega
    · rw [pagePerformanceFilterQuery, if_neg hq]
      decide

/-- **C8** witness: the derivations at the concrete query `"abc"`. -/
theorem c8_witness :
    ("abc" : String) ≠ "*" ∧
    groupedCountFilterQuery "abc" = some "abc" ∧
    pagePerformanceFilterQuery "abc" = "@type:view " ++ "abc" :=
  ⟨by decide, (c8_wildcard_query_omission.2.2.1 "abc" (by decide)).1,
   (c8_wildcard_query_omission.2.2.1 "abc" (by decide)).2⟩

/-! ### Claim C9 (corrected) -/

/-- **C9** counterexample: with a non-null data field containing one
event whose attribute map is `{a: null}`, the grouped-count handler
still raises — a TypeError escaping from `getValueByPath` — refuting
"every handler raises an error if and only if the external data field
is null/absent". -/
theorem c9_counterexample_typeerror_with_data :
    get_rum_grouped_event_count_handler (some [exNullMid]) "a.b" = .error .typeError ∧
    (some [exNullMid] : Option (List RumEvent)) ≠ none :=
  ⟨rfl, by decide⟩

/-- **C9** amended: every handler raises the no-data error, with message
`"No RUM applications data returned"` for `get_rum_applications` and
`"No RUM events data returned"` for the event-based handlers, exactly
when the data field is null/absent, producing no output in that case;
an empty (non-null) data array yields a normal result; however the
grouped-count handler may additionally raise a TypeError on non-null
data when path resolution hits a null intermediate value. -/
theorem c9_amended_no_data_errors :
    (∀ d : Option (List JsValue), get_rum_applications_handler d
        = .error (.noData "No RUM applications data returned") ↔ d = none) ∧
    (∀ l : List JsValue, get_rum_applications_handler (some l) = .ok l) ∧
    (∀ d : Option (List RumEvent), get_rum_events_handler d
        = .error (.noData "No RUM events data returned") ↔ d = none) ∧
    (∀ l : List RumEvent, get_rum_events_handler (some l) = .ok l) ∧
    (∀ d : Option (List RumEvent), get_rum_page_waterfall_handler d
        = .error (.noData "No RUM events data returned") ↔ d = none) ∧
    (∀ l : List RumEvent, get_rum_page_waterfall_handler (some l) = .ok l) ∧
    (∀ (d : Option (List RumEvent)) (ms : List String) (err : HandlerError),
        get_rum_page_performance_handler d ms = .error err ↔
          (d = none ∧ err = .noData "No RUM events data returned")) ∧
    (∀ gb : String, get_rum_grouped_event_count_handler none gb
        = .error (.noData "No RUM events data returned")) ∧
    (∀ (l : List RumEvent) (gb : String) (err : HandlerError),
        get_rum_grouped_event_count_handler (some l) gb = .error err → err = .typeError) ∧
    (∀ gb : String, get_rum_grouped_event_count_handler (some []) gb = .ok []) := by
  refine ⟨fun d => ?_, fun l => rfl, fun d => ?_, fun l => rfl, fun d => ?_, fun l => rfl,
    fun d ms err => ?_, fun gb => rfl, fun l gb err => ?_, fun gb => rfl⟩
  · cases d <;> simp [get_rum_applications_handler]
  · cases d <;> simp [get_rum_events_handler]
  · cases d <;> simp [get_rum_page_waterfall_handler]
  · cases d <;> simp [get_rum_page_performance_handler, eq_comm]
  · rw [get_rum_grouped_event_count_handler]
    cases hagg : get_rum_grouped_event_count l gb with
    | none =>
      intro h
      exact (Except.error.inj h).symm
    | some res =>
      intro h
      exact absurd h (by simp)

/-- **C9** witness: the applications handler at `data = null` raises
with its exact message. -/
theorem c9_witness :
    get_rum_applications_handler (none : Option (List JsValue))
      = .error (.noData "No RUM applications data returned") :=
  (c9_amended_no_data_errors.1 none).mpr rfl
